import Mathlib

/-!
Verification of the `datadriven` data-driven test framework (`datadriven.go`).

The Go source is shallowly embedded: strings are modelled as Lean `String`
(byte-level operations are carried out on `List Char`, which agrees with the
byte view on the `'\n'`/`'\r'` comparisons the source performs, since no
UTF-8 continuation byte equals an ASCII code point), fallible operations
return `Option`/product-with-error, and the recursive subtest state machine
of `runSubTest`/`runDirectiveOrSubTest` is embedded as an explicit-stack
interpreter over the record stream.
-/

namespace Datadriven

/-! ### Basic string helpers (Go `strings` package operations used by the source) -/

/-- `listIsPre p l` holds when `p` is a leading segment of `l`.
Models Go `strings.HasPrefix` on the underlying character lists. -/
def listIsPre : List Char → List Char → Bool
  | [], _ => true
  | _ :: _, [] => false
  | a :: as, b :: bs => a = b && listIsPre as bs

/-- Go `strings.HasPrefix s pre`. -/
def goHasPre (s pre : String) : Bool :=
  listIsPre pre.data s.data

/-- Go `strings.HasSuffix s suf`. -/
def goHasSuf (s suf : String) : Bool :=
  listIsPre suf.data.reverse s.data.reverse

/-- Go `unicode.IsSpace` (the White_Space property, as trimmed by
`strings.TrimSpace`). -/
def isGoSpace (c : Char) : Bool :=
  decide (c = ' ' ∨ c = '\t' ∨ c = '\n' ∨ c = Char.ofNat 0x0B ∨ c = Char.ofNat 0x0C
    ∨ c = '\r' ∨ c.toNat = 0x85 ∨ c.toNat = 0xA0 ∨ c.toNat = 0x1680
    ∨ (0x2000 ≤ c.toNat ∧ c.toNat ≤ 0x200A)
    ∨ c.toNat = 0x2028 ∨ c.toNat = 0x2029 ∨ c.toNat = 0x202F ∨ c.toNat = 0x205F
    ∨ c.toNat = 0x3000)

/-- Go `strings.TrimSpace`, on character lists. -/
def goTrimSpace (l : List Char) : List Char :=
  ((l.dropWhile isGoSpace).reverse.dropWhile isGoSpace).reverse

/-- Go `bufio.ScanLines` helper `dropCR`: drop one terminal carriage return. -/
def dropCR (l : List Char) : List Char :=
  match l.getLast? with
  | some '\r' => l.dropLast
  | _ => l

/-- Go `bufio.MaxScanTokenSize`: the scanner's buffer, and hence any token,
holds strictly fewer than this many bytes (64 KiB). -/
def maxScanTokenSize : Nat := 65536

/-- The UTF-8 byte length of a character list, matching Go's byte view of a
string. -/
def utf8Len (l : List Char) : Nat :=
  (l.map Char.utf8Size).sum

/-- Worker for `goLines`: `acc` holds the current (reversed) partial line and
`room` the number of buffer bytes still free for it.  When a character would
fill the buffer to `maxScanTokenSize` bytes with no newline found, `Scan`
fails with `ErrTooLong` and (since `hasBlankLine` never consults
`scanner.Err()`) the scan silently ends with no further tokens. -/
def goLinesAux : List Char → Nat → List Char → List (List Char)
  | acc, _, [] => if acc.isEmpty then [] else [dropCR acc.reverse]
  | acc, room, c :: rest =>
    if c = '\n' then dropCR acc.reverse :: goLinesAux [] maxScanTokenSize rest
    else if room ≤ c.utf8Size then []
    else goLinesAux (c :: acc) (room - c.utf8Size) rest

/-- The sequence of tokens produced by `bufio.NewScanner(strings.NewReader s)`
with the default `ScanLines` split function and the default 64 KiB maximum
token size, as consumed by `hasBlankLine`: a line whose content reaches
64 KiB before its newline aborts the scan. -/
def goLines (s : String) : List (List Char) :=
  goLinesAux [] maxScanTokenSize s.data

/-- Follows the spec's words, not the source: the lines of a text in the
unbounded sense of "the actual text contains at least one line that is empty
after trimming whitespace" — `ScanLines` splitting with no buffer cap.
Compared against the source's capped `goLines`. -/
def specLinesAux : List Char → List Char → List (List Char)
  | acc, [] => if acc.isEmpty then [] else [dropCR acc.reverse]
  | acc, c :: rest =>
    if c = '\n' then dropCR acc.reverse :: specLinesAux [] rest
    else specLinesAux (c :: acc) rest

/-- Follows the spec's words, not the source: unbounded line splitting. -/
def specLines (s : String) : List (List Char) :=
  specLinesAux [] s.data

/-- The raw inter-newline chunks of a character list (no carriage-return
stripping, no buffer cap): the material from which the scanner forms its
tokens, used to state when the capped and unbounded scans agree. -/
def rawLinesAux : List Char → List Char → List (List Char)
  | acc, [] => [acc.reverse]
  | acc, c :: rest =>
    if c = '\n' then acc.reverse :: rawLinesAux [] rest
    else rawLinesAux (c :: acc) rest

/-- The raw inter-newline chunks of a character list. -/
def rawLines (cs : List Char) : List (List Char) :=
  rawLinesAux [] cs

/-- `hasBlankLine` (datadriven.go lines 499-507): scan the lines of `s` and
report whether some line is empty after `strings.TrimSpace`. -/
def hasBlankLine (s : String) : Bool :=
  (goLines s).any fun l => (goTrimSpace l).isEmpty

/-- Output normalization in `runDirective` (datadriven.go lines 270-275):
a non-empty handler result lacking a trailing newline gets exactly one
appended. -/
def normalizeActual (s : String) : String :=
  if s ≠ "" ∧ goHasSuf s "\n" = false then s ++ "\n" else s

/-- The expected-output section emitted by the rewrite branch of
`runDirective` (datadriven.go lines 290-299), as the list of chunks written
to the rewrite buffer: four delimiter lines around the actual text when
`hasBlankLine` holds, otherwise a single delimiter line followed by the
actual text. -/
def rewriteExpectedChunks (actual : String) : List String :=
  if hasBlankLine actual then ["----", "----", actual, "----", "----"]
  else ["----", actual]

/-- The end-of-run trailing-blank-line strip applied to the accumulated
rewrite buffer (datadriven.go lines 122-125):
`if l := len(data); l > 2 && data[l-1] == '\n' && data[l-2] == '\n' \x7b data = data[:l-1] \x7d`. -/
def rewriteFinalStrip (data : List Char) : List Char :=
  if 2 < data.length ∧ data.getD (data.length - 1) ' ' = '\n'
      ∧ data.getD (data.length - 2) ' ' = '\n' then
    data.take (data.length - 1)
  else data

/-! ### The argument value model (`CmdArg`, `TestData`, `ScanArgs`) -/

/-- `CmdArg` (datadriven.go lines 442-445): a directive-line argument, a key
with an ordered list of recorded string values. -/
structure CmdArg where
  key : String
  vals : List String
deriving DecidableEq, Inhabited, Repr

/-- `TestData` (datadriven.go lines 368-387): one parsed directive record. -/
structure TestData where
  pos : String
  cmd : String
  cmdArgs : List CmdArg
  input : String
  expected : String
deriving DecidableEq, Inhabited, Repr

/-- `CmdArg.String` (datadriven.go lines 447-458): re-serialization of an
argument; `strings.Join(vals, ", ")` is `String.intercalate ", "`. -/
def cmdArgString (arg : CmdArg) : String :=
  match arg.vals with
  | [] => arg.key
  | [v] => arg.key ++ "=" ++ v
  | _ => arg.key ++ "=(" ++ String.intercalate ", " arg.vals ++ ")"

/-- Go `strconv.ParseBool`: the exact set of accepted literals. -/
def parseBool (s : String) : Option Bool :=
  if s = "1" ∨ s = "t" ∨ s = "T" ∨ s = "TRUE" ∨ s = "true" ∨ s = "True" then some true
  else if s = "0" ∨ s = "f" ∨ s = "F" ∨ s = "FALSE" ∨ s = "false" ∨ s = "False" then
    some false
  else none

/-- The decimal value of one digit character, if it is a digit. -/
def digitVal (c : Char) : Option Nat :=
  if '0' ≤ c ∧ c ≤ '9' then some (c.toNat - '0'.toNat) else none

/-- Accumulate a nonempty all-digit run in base 10. -/
def decDigitsAux (acc : Nat) : List Char → Option Nat
  | [] => some acc
  | c :: rest =>
    match digitVal c with
    | some d => decDigitsAux (acc * 10 + d) rest
    | none => none

/-- Value of a nonempty string of decimal digits; `none` on any non-digit or
on the empty string (as in Go `strconv` with base 10, where underscores are
also rejected). -/
def decDigits (cs : List Char) : Option Nat :=
  match cs with
  | [] => none
  | _ => decDigitsAux 0 cs

/-- Go `strconv.ParseUint(s, 10, 64)`: no sign permitted, decimal digits,
error (modelled `none`) outside `[0, 2^64)`. -/
def parseUint64 (s : String) : Option Nat :=
  match decDigits s.data with
  | some n => if n < 2 ^ 64 then some n else none
  | none => none

/-- Go `strconv.ParseInt(s, 10, 64)`: optional sign, decimal digits, error
(modelled `none`) outside the signed 64-bit range. -/
def parseInt64 (s : String) : Option Int :=
  match s.data with
  | '+' :: rest =>
    match decDigits rest with
    | some n => if n ≤ 2 ^ 63 - 1 then some (Int.ofNat n) else none
    | none => none
  | '-' :: rest =>
    match decDigits rest with
    | some n => if n ≤ 2 ^ 63 then some (-(Int.ofNat n)) else none
    | none => none
  | cs =>
    match decDigits cs with
    | some n => if n ≤ 2 ^ 63 - 1 then some (Int.ofNat n) else none
    | none => none

/-- A scan destination: the closed set of destination kinds accepted by
`CmdArg.Scan` (`*string`, `*int`, `*uint64`, `*bool`), holding its current
value. -/
inductive Dest where
  | dstr (s : String)
  | dint (n : Int)
  | duint (n : Nat)
  | dbool (b : Bool)
deriving DecidableEq, Inhabited, Repr

/-- The type-switch body of `CmdArg.Scan` (datadriven.go lines 466-489):
convert `val` into the destination's kind; `none` models `t.Fatal` on a
conversion error. (Go's `int` is assumed 64-bit, as the source comments.) -/
def scanDest (val : String) (dest : Dest) : Option Dest :=
  match dest with
  | .dstr _ => some (.dstr val)
  | .dint _ => (parseInt64 val).map .dint
  | .duint _ => (parseUint64 val).map .duint
  | .dbool _ => (parseBool val).map .dbool

/-- `CmdArg.Scan` (datadriven.go lines 461-490): fatal (`none`) when `i` is
out of range of the recorded values, otherwise convert value `i`. -/
def argScan (arg : CmdArg) (i : Nat) (dest : Dest) : Option Dest :=
  if arg.vals.length ≤ i then none
  else scanDest (arg.vals.getD i "") dest

/-- The destination loop of `ScanArgs` (datadriven.go lines 432-434): scan
destinations in order starting at value index `i`; on the first failing
index, stop, leaving that destination and all later ones unchanged.  The
error message stands in for the `strconv` error text reported via
`t.Fatal`. -/
def scanList (arg : CmdArg) (i : Nat) : List Dest → List Dest × Option String
  | [] => ([], none)
  | d :: ds =>
    match argScan arg i d with
    | some d2 =>
      let r := scanList arg (i + 1) ds
      (d2 :: r.1, r.2)
    | none => (d :: ds, some ("cannot scan value at index " ++ toString i))

/-- The lookup loop of `ScanArgs` (datadriven.go lines 418-424): the first
argument whose key matches, defaulting to the zero `CmdArg` (whose key is
`""`) when none matches. -/
def lookupArg (args : List CmdArg) (key : String) : CmdArg :=
  (args.find? fun a => a.key == key).getD ⟨"", []⟩

/-- `TestData.ScanArgs` (datadriven.go lines 416-435).  The result pairs the
final destination list with `none` on success or `some msg` on a fatal
failure; on failure the returned destinations reflect exactly the mutations
performed before the failure. -/
def scanArgs (td : TestData) (key : String) (dests : List Dest) :
    List Dest × Option String :=
  let arg := lookupArg td.cmdArgs key
  if arg.key = "" then (dests, some ("missing argument: " ++ key))
  else if dests.length ≠ arg.vals.length then
    (dests, some (arg.key ++ ": got " ++ toString dests.length ++
      " destinations, but " ++ toString arg.vals.length ++ " values"))
  else scanList arg 0 dests

/-! ### The subtest state machine

`runTestInternal` / `runDirectiveOrSubTest` / `runSubTest` (datadriven.go
lines 107-251) form a recursive descent over the record stream.  It is
embedded here as an interpreter with an explicit stack of open subtest
groups.  Each Go `t.Run` closure corresponds to one stack frame; a fatal
(`Fatalf`, which marks every enclosing test failed and stops reading)
propagates out as a terminal outcome carrying the rendered message, exactly
as in the source, where after a fatal every enclosing `runSubTest` performs
no further report (its `seenSkip`/`seenSubTestEnd` checks are off and
`t.Failed()` is on) and every `runDirectiveOrSubTest` stops via `FailNow`.
The rewrite buffer is modelled separately (`rewriteExpectedChunks`,
`rewriteFinalStrip`); `rw` only controls whether the expected/actual
comparison is performed, as in `runDirective`. -/

/-- One open subtest group: its name and the position of its start record
(`subTestStartPos` in `runSubTest`). -/
structure Frame where
  name : String
  startPos : String
deriving DecidableEq, Inhabited, Repr

/-- Outcome of the caller-supplied handler `f` on one record: a normal
return carrying the returned text and whether the handler marked the test
failed via `t.Error`, or an invocation of the host framework's skip. -/
inductive HandlerResult where
  | ret (s : String) (failed : Bool)
  | skip

/-- Terminal outcome of processing a record stream. -/
inductive RunOutcome where
  | ok
  | fatalMsg (msg : String)
  | errStop
  | topSkip
deriving DecidableEq, Repr

/-- `TestData.Fatalf` (datadriven.go lines 494-497): every fatal report is
prefixed with the current record's position. -/
def fatalAt (d : TestData) (msg : String) : RunOutcome :=
  .fatalMsg (d.pos ++ ": " ++ msg)

/-- Message of the missing-end-marker fatal (datadriven.go lines 217-218). -/
def eofSubtestMsg (startPos : String) : String :=
  "EOF encountered without subtest end directive\n" ++ startPos ++
    ": subtest started here"

/-- Message of the skip-inside-subtest fatal (datadriven.go lines 204-205). -/
def skipInSubtestMsg (startPos : String) : String :=
  "cannot use t.Skip inside subtest\n" ++ startPos ++ ": subtest started here"

/-- Message of the mismatched-end fatal (datadriven.go lines 210-211); Go's
`%q` is rendered as plain double quotes (none of the names involved need
escaping in the claims below). -/
def mismatchedEndMsg (wanted got : String) : String :=
  "mismatched subtest end directive: expected \"" ++ wanted ++ "\", got \"" ++
    got ++ "\""

/-- Message of the prefix-violation fatal (datadriven.go line 235), with
`%q` rendered as plain double quotes. -/
def startPreMsg (pre : String) : String :=
  "name of nested subtest must begin with \"" ++ pre ++ "\""

/-- The output-mismatch fatal of `runDirective` (datadriven.go line 301),
raised directly on `t` (no position-prefix wrapper). -/
def outputMismatchMsg (d : TestData) (actual : String) : String :=
  "\n" ++ d.pos ++ ": " ++ d.input ++ "\nexpected:\n" ++ d.expected ++
    "\nfound:\n" ++ actual

/-- Result of `isSubTestEnd` (datadriven.go lines 240-251): not an end
marker, a fatal syntax error (more than one trailing argument), or a valid
end marker. -/
inductive EndCheck where
  | notEnd
  | fatalSyntax
  | isEnd
deriving DecidableEq, Repr

/-- `isSubTestEnd` (datadriven.go lines 240-251). -/
def isSubTestEnd (d : TestData) : EndCheck :=
  if d.cmd ≠ "subtest" then .notEnd
  else
    match d.cmdArgs with
    | [] => .notEnd
    | a0 :: _ =>
      if a0.key ≠ "end" then .notEnd
      else if 2 < d.cmdArgs.length then .fatalSyntax
      else .isEnd

/-- Result of `isSubTestStart` (datadriven.go lines 223-238). -/
inductive StartCheck where
  | notStart
  | fatalStart (msg : String)
  | start (name : String)
deriving DecidableEq, Repr

/-- `isSubTestStart` (datadriven.go lines 223-238): a record whose command
is `subtest` must carry exactly one argument, whose key must not be `end`
and must begin with the mandatory name segment `pre`. -/
def isSubTestStart (d : TestData) (pre : String) : StartCheck :=
  if d.cmd ≠ "subtest" then .notStart
  else if d.cmdArgs.length ≠ 1 then .fatalStart "invalid syntax for subtest"
  else
    let name := (d.cmdArgs.headD default).key
    if name = "end" then .fatalStart "subtest end without corresponding start"
    else if goHasPre name pre = false then .fatalStart (startPreMsg pre)
    else .start name

/-- The mandatory subtest-name segment at the current nesting: empty at top
level (`runTestInternal` line 118), `name ++ "/"` inside the group `name`
(`runSubTest` line 192). -/
def subPre : List Frame → String
  | [] => ""
  | fr :: _ => fr.name ++ "/"

/-- How one record is dispatched by the state machine. -/
inductive Action where
  | endPop
  | fatalAct (msg : String)
  | startPush (name : String)
  | directive
deriving DecidableEq, Repr

/-- Dispatch on `isSubTestStart` (`runDirectiveOrSubTest`, lines 145-162). -/
def classifyStart (pre : String) (d : TestData) : Action :=
  match isSubTestStart d pre with
  | .fatalStart m => .fatalAct m
  | .start n => .startPush n
  | .notStart => .directive

/-- Classification of one record against the innermost open group: inside a
group the loop of `runSubTest` (lines 187-193) first tests `isSubTestEnd`
(including the post-loop exact-name check of lines 208-212, performed on
the end record itself), then falls through to `runDirectiveOrSubTest`; at
top level only `isSubTestStart` applies. -/
def classify (stack : List Frame) (d : TestData) : Action :=
  match stack with
  | fr :: _ =>
    match isSubTestEnd d with
    | .isEnd =>
      if d.cmdArgs.length = 2 ∧ (d.cmdArgs.getD 1 default).key ≠ fr.name then
        .fatalAct (mismatchedEndMsg (d.cmdArgs.getD 1 default).key fr.name)
      else .endPop
    | .fatalSyntax => .fatalAct "invalid syntax for subtest end"
    | .notEnd => classifyStart (subPre stack) d
  | [] => classifyStart "" d

/-- The record-processing loop.  Arguments: rewrite flag, handler, stack of
open groups (innermost first), the last record read (`r.data`, used for
position prefixes of post-loop fatals), and the remaining stream.
At stream end with an open group, the innermost `runSubTest` raises the
missing-end fatal of lines 214-219 (its `!t.Failed()` guard always holds
there: any earlier failure stops the reading loop before exhaustion, so an
exhausted stream implies no failure); enclosing groups then report nothing.
A skipping handler is caught by the innermost enclosing group's closure
(lines 179-185, 196-206) and rejected fatally; at top level the skip is
honored by the host framework. -/
def runLoop (rw : Bool) (f : TestData → HandlerResult) :
    List Frame → TestData → List TestData → RunOutcome
  | [], _, [] => .ok
  | fr :: _, last, [] => fatalAt last (eofSubtestMsg fr.startPos)
  | stack, _, d :: rest =>
    match classify stack d with
    | .fatalAct msg => fatalAt d msg
    | .endPop => runLoop rw f stack.tail d rest
    | .startPush name => runLoop rw f (⟨name, d.pos⟩ :: stack) d rest
    | .directive =>
      match f d with
      | .skip =>
        match stack with
        | [] => .topSkip
        | fr :: _ => fatalAt d (skipInSubtestMsg fr.startPos)
      | .ret s failed =>
        if failed then .errStop
        else if rw = false ∧ d.expected ≠ normalizeActual s then
          .fatalMsg (outputMismatchMsg d (normalizeActual s))
        else runLoop rw f stack d rest

/-- `runTestInternal`'s driving loop (lines 116-119): start with no open
group and an empty mandatory name segment. -/
def runFile (rw : Bool) (f : TestData → HandlerResult) (recs : List TestData) :
    RunOutcome :=
  runLoop rw f [] default recs

/-! ### Helper lemmas -/

/-- Any list of length at least two splits off its final two elements. -/
theorem two_tail_decomp (data : List Char) (hlen : 2 ≤ data.length) :
    ∃ t x y, data = t ++ [x, y] := by
  obtain ⟨a, r1, h1⟩ : ∃ a r1, data.reverse = a :: r1 := by
    cases hr : data.reverse with
    | nil =>
      have h0 : data.length = 0 := by simpa using congrArg List.length hr
      exact absurd h0 (by omega)
    | cons a r1 => exact ⟨a, r1, rfl⟩
  obtain ⟨b, r2, h2⟩ : ∃ b r2, r1 = b :: r2 := by
    cases hr : r1 with
    | nil =>
      rw [hr] at h1
      have h0 : data.length = 1 := by simpa using congrArg List.length h1
      exact absurd h0 (by omega)
    | cons b r2 => exact ⟨b, r2, rfl⟩
  refine ⟨r2.reverse, b, a, ?_⟩
  have hrw : data = (a :: b :: r2).reverse := by
    rw [← List.reverse_reverse data, h1, h2]
  simpa using hrw

/-- `getD` at the index of the second-to-last element of `t ++ [x, y]`. -/
theorem getD_append_two_lo (t : List Char) (x y : Char) :
    (t ++ [x, y]).getD t.length ' ' = x := by
  simp [List.getD, List.getElem?_append_right (Nat.le_refl t.length)]

/-- `getD` at the index of the last element of `t ++ [x, y]`. -/
theorem getD_append_two_hi (t : List Char) (x y : Char) :
    (t ++ [x, y]).getD (t.length + 1) ' ' = y := by
  simp [List.getD, List.getElem?_append_right (Nat.le_add_right t.length 1)]

/-- The final strip on a buffer of positive-length prefix followed by two
newlines removes exactly the last newline. -/
theorem rewriteFinalStrip_two_nl (t : List Char) (hpos : 0 < t.length) :
    rewriteFinalStrip (t ++ ['\n', '\n']) = t ++ ['\n'] := by
  have hlen : (t ++ ['\n', '\n']).length = t.length + 2 := by simp
  have g3 : (t ++ ['\n', '\n']).take (t.length + 1) = t ++ ['\n'] := by
    rw [List.take_append_eq_append_take,
      List.take_of_length_le (Nat.le_add_right _ 1)]
    congr 1
    rw [Nat.add_sub_cancel_left]
    rfl
  unfold rewriteFinalStrip
  rw [hlen]
  have e1 : t.length + 2 - 1 = t.length + 1 := by omega
  have e2 : t.length + 2 - 2 = t.length := by omega
  rw [e1, e2, if_pos ⟨by omega, getD_append_two_hi t '\n' '\n',
    getD_append_two_lo t '\n' '\n'⟩, g3]

/-! ### Claim theorems -/

/-- Claim C3 counterexample: the buffer consisting of exactly two line
terminators ends with two consecutive line terminators, yet the end-of-run
strip (whose guard requires length strictly greater than 2) leaves it
unchanged rather than removing one terminator as the claim requires. -/
theorem rewriteFinalStrip_cex :
    (['\n', '\n'] : List Char) = ([] : List Char) ++ ['\n', '\n']
    ∧ rewriteFinalStrip ['\n', '\n'] = ['\n', '\n']
    ∧ rewriteFinalStrip ['\n', '\n'] ≠ ['\n'] := by
  decide

/-- Claim C3 (amended): at the end of a rewrite run, a buffer of length
greater than two that ends with two consecutive line terminators has exactly
one trailing terminator removed before write-back; a buffer not ending with
two consecutive line terminators, or of length at most two, is written back
unchanged. -/
theorem rewriteFinalStrip_spec (data : List Char) :
    (∀ t, data = t ++ ['\n', '\n'] → 2 < data.length →
      rewriteFinalStrip data = t ++ ['\n'])
    ∧ ((∀ t, data ≠ t ++ ['\n', '\n']) → rewriteFinalStrip data = data)
    ∧ (data.length ≤ 2 → rewriteFinalStrip data = data) := by
  refine ⟨fun t h hlen => ?_, fun h => ?_, fun hlen => ?_⟩
  · subst h
    have hpos : 0 < t.length := by simp at hlen; omega
    exact rewriteFinalStrip_two_nl t hpos
  · unfold rewriteFinalStrip
    rw [if_neg]
    rintro ⟨h1, h2, h3⟩
    obtain ⟨t, x, y, rfl⟩ := two_tail_decomp data (by omega)
    have hl : (t ++ [x, y]).length = t.length + 2 := by simp
    rw [hl] at h2 h3
    have e1 : t.length + 2 - 1 = t.length + 1 := by omega
    have e2 : t.length + 2 - 2 = t.length := by omega
    rw [e1, getD_append_two_hi] at h2
    rw [e2, getD_append_two_lo] at h3
    subst h2
    subst h3
    exact h t rfl
  · unfold rewriteFinalStrip
    rw [if_neg]
    rintro ⟨h1, -, -⟩
    omega

/-- Witness for claim C3 (amended): stripping `['a', '\n', '\n']` yields
`['a', '\n']`. -/
theorem rewriteFinalStrip_spec_witness :
    rewriteFinalStrip ['a', '\n', '\n'] = ['a', '\n'] :=
  (rewriteFinalStrip_spec ['a', '\n', '\n']).1 ['a'] rfl (by decide)

/-- Claim C5: when the record stream is exhausted while a subtest group is
open, processing fails fatally with a message carrying both the current
position (the position of the last record read) and the group's original
start position. -/
theorem runLoop_eof_open_group (rw : Bool) (f : TestData → HandlerResult)
    (fr : Frame) (s2 : List Frame) (last : TestData) :
    runLoop rw f (fr :: s2) last [] =
      .fatalMsg (last.pos ++ ": " ++
        ("EOF encountered without subtest end directive\n" ++ fr.startPos ++
          ": subtest started here")) := by
  rfl

/-- Claim C8: a non-empty handler result lacking a trailing line terminator
gets exactly one appended; an empty result, or one already ending with a
line terminator, is used unchanged. -/
theorem normalizeActual_spec (s : String) :
    (s ≠ "" → goHasSuf s "\n" = false → normalizeActual s = s ++ "\n")
    ∧ (s = "" → normalizeActual s = s)
    ∧ (goHasSuf s "\n" = true → normalizeActual s = s) := by
  refine ⟨fun h1 h2 => ?_, fun h => ?_, fun h => ?_⟩ <;>
    simp [normalizeActual, *]

/-- Witness for claim C8 at the handler result `"abc"`. -/
theorem normalizeActual_spec_witness : normalizeActual "abc" = "abc" ++ "\n" :=
  (normalizeActual_spec "abc").1 (by decide) (by decide)

/-- Claim C9: re-serializing an argument yields the bare key on zero values,
`key=value` on one value, and `key=(v1, v2, ...)` (values joined by a comma
and a space, in declaration order) on two or more values. -/
theorem cmdArgString_canonical (arg : CmdArg) :
    (arg.vals = [] → cmdArgString arg = arg.key)
    ∧ (∀ v, arg.vals = [v] → cmdArgString arg = arg.key ++ "=" ++ v)
    ∧ (∀ v1 v2 vs, arg.vals = v1 :: v2 :: vs →
      cmdArgString arg = arg.key ++ "=(" ++
        String.intercalate ", " (v1 :: v2 :: vs) ++ ")") := by
  refine ⟨fun h => ?_, fun v h => ?_, fun v1 v2 vs h => ?_⟩ <;>
    simp [cmdArgString, h]

/-- Witness for claim C9 at a two-valued argument. -/
theorem cmdArgString_canonical_witness :
    cmdArgString ⟨"k", ["a", "b"]⟩ =
      "k" ++ "=(" ++ String.intercalate ", " ["a", "b"] ++ ")" :=
  (cmdArgString_canonical ⟨"k", ["a", "b"]⟩).2.2 "a" "b" [] rfl

/-- The first matching argument found by the `ScanArgs` lookup loop has the
looked-up key. -/
theorem find?_key_eq {args : List CmdArg} {key : String} {a : CmdArg}
    (h : args.find? (fun x => x.key == key) = some a) : a.key = key := by
  have hp := List.find?_some h
  simpa using hp

/-- Claim C10: `ScanArgs` with the empty string as key always reports a
missing argument and leaves every destination unchanged, regardless of the
argument list — presence is tested against the zero `CmdArg`'s empty key. -/
theorem scanArgs_empty_key_missing (td : TestData) (dests : List Dest) :
    (scanArgs td "" dests).2 = some "missing argument: "
    ∧ (scanArgs td "" dests).1 = dests := by
  have hkey : (lookupArg td.cmdArgs "").key = "" := by
    unfold lookupArg
    cases hf : td.cmdArgs.find? (fun a => a.key == "") with
    | none => rfl
    | some a => simpa using find?_key_eq hf
  constructor <;> simp [scanArgs, hkey, String.append_empty]

/-- Claim C4 counterexample: with the empty string as key, an argument with
that key exists (it is found by the lookup loop), its arity matches the
single destination, and its value converts to the destination's kind, yet
`ScanArgs` fails fatally with a missing-argument report — refuting the
claimed equivalence for the empty key. -/
theorem scanArgs_spec_cex :
    (TestData.mk "p" "cmd" [⟨"", ["x"]⟩] "" "").cmdArgs.find?
        (fun a => a.key == "") = some ⟨"", ["x"]⟩
    ∧ (CmdArg.mk "" ["x"]).vals.length = [Dest.dstr "old"].length
    ∧ (argScan ⟨"", ["x"]⟩ 0 (Dest.dstr "old")).isSome = true
    ∧ (scanArgs ⟨"p", "cmd", [⟨"", ["x"]⟩], "", ""⟩ "" [Dest.dstr "old"]).2 =
        some "missing argument: " := by
  decide

/-- `utf8Len` distributes over cons. -/
theorem utf8Len_cons (c : Char) (l : List Char) :
    utf8Len (c :: l) = c.utf8Size + utf8Len l := by
  simp [utf8Len]

/-- `utf8Len` is invariant under reversal. -/
theorem utf8Len_reverse (l : List Char) : utf8Len l.reverse = utf8Len l := by
  simp [utf8Len, List.sum_reverse]

/-- A run of `n` copies of `'a'` with at most `n` buffer bytes free aborts
the capped scan with no tokens (the modelled `ErrTooLong`). -/
theorem goLinesAux_replicate_stop (n : Nat) :
    ∀ (acc : List Char) (room : Nat) (rest : List Char),
      0 < room → room ≤ n →
      goLinesAux acc room (List.replicate n 'a' ++ rest) = [] := by
  induction n with
  | zero =>
    intro acc room rest h1 h2
    exact absurd (Nat.lt_of_lt_of_le h1 h2) (Nat.lt_irrefl 0)
  | succ n ih =>
    intro acc room rest h1 h2
    rw [List.replicate_succ, List.cons_append]
    have hsz : Char.utf8Size 'a' = 1 := rfl
    by_cases hr : room ≤ Char.utf8Size 'a'
    · simp [goLinesAux, hr]
    · simp only [goLinesAux, if_neg (by decide : ¬ ('a' = '\n')), if_neg hr]
      exact ih ('a' :: acc) (room - Char.utf8Size 'a') rest
        (by omega) (by omega)

/-- The unbounded scan absorbs a run of `'a'` into the accumulator. -/
theorem specLinesAux_replicate (n : Nat) :
    ∀ (acc rest : List Char),
      specLinesAux acc (List.replicate n 'a' ++ rest) =
        specLinesAux (List.replicate n 'a' ++ acc) rest := by
  induction n with
  | zero => intro acc rest; simp
  | succ n ih =>
    intro acc rest
    rw [List.replicate_succ, List.cons_append]
    have hstep : specLinesAux acc ('a' :: (List.replicate n 'a' ++ rest)) =
        specLinesAux ('a' :: acc) (List.replicate n 'a' ++ rest) := by
      simp [specLinesAux]
    rw [hstep, ih]
    congr 1
    rw [← List.replicate_succ, List.replicate_succ']
    simp

/-- The unbounded scan emits a token at a newline. -/
theorem specLinesAux_newline (acc rest : List Char) :
    specLinesAux acc ('\n' :: rest) =
      dropCR acc.reverse :: specLinesAux [] rest := by
  simp [specLinesAux]

/-- Among the raw chunks there is one extending the accumulator, hence at
least as long in bytes. -/
theorem rawLinesAux_head_ge (cs : List Char) :
    ∀ acc, ∃ chunk ∈ rawLinesAux acc cs, utf8Len acc ≤ utf8Len chunk := by
  induction cs with
  | nil =>
    intro acc
    exact ⟨acc.reverse, by simp [rawLinesAux], by rw [utf8Len_reverse]⟩
  | cons c rest ih =>
    intro acc
    by_cases hc : c = '\n'
    · subst hc
      exact ⟨acc.reverse, by simp [rawLinesAux], by rw [utf8Len_reverse]⟩
    · obtain ⟨chunk, hmem, hle⟩ := ih (c :: acc)
      refine ⟨chunk, by simp [rawLinesAux, hc, hmem], ?_⟩
      calc utf8Len acc ≤ utf8Len (c :: acc) := by
            rw [utf8Len_cons]; exact Nat.le_add_left _ _
        _ ≤ utf8Len chunk := hle

/-- When every raw chunk is shorter than the 64 KiB cap, the capped scan and
the unbounded scan agree. -/
theorem goLinesAux_agree (cs : List Char) :
    ∀ acc room, room + utf8Len acc = maxScanTokenSize →
      (∀ chunk ∈ rawLinesAux acc cs, utf8Len chunk < maxScanTokenSize) →
      goLinesAux acc room cs = specLinesAux acc cs := by
  induction cs with
  | nil => intro acc room _ _; rfl
  | cons c rest ih =>
    intro acc room hroom h
    by_cases hc : c = '\n'
    · subst hc
      have hraw : rawLinesAux acc ('\n' :: rest) =
          acc.reverse :: rawLinesAux [] rest := by
        simp [rawLinesAux]
      have htail : goLinesAux [] maxScanTokenSize rest = specLinesAux [] rest :=
        ih [] maxScanTokenSize (by simp [utf8Len])
          (fun chunk hm => h chunk (by rw [hraw]; exact List.mem_cons_of_mem _ hm))
      simp [goLinesAux, specLinesAux, htail]
    · have hraw : rawLinesAux acc (c :: rest) = rawLinesAux (c :: acc) rest := by
        simp [rawLinesAux, hc]
      obtain ⟨chunk, hmem, hge⟩ := rawLinesAux_head_ge rest (c :: acc)
      have hlt : utf8Len (c :: acc) < maxScanTokenSize :=
        Nat.lt_of_le_of_lt hge (h chunk (by rw [hraw]; exact hmem))
      rw [utf8Len_cons] at hlt
      have hcond : ¬ (room ≤ c.utf8Size) := by omega
      simp only [goLinesAux, specLinesAux, if_neg hc, if_neg hcond]
      exact ih (c :: acc) (room - c.utf8Size)
        (by rw [utf8Len_cons]; omega)
        (fun chunk2 hm2 => h chunk2 (by rw [hraw]; exact hm2))

/-- An actual output whose single content line is exactly 64 KiB of `'a'`,
followed by a blank line. -/
def overLongActual : String :=
  ⟨List.replicate 65536 'a' ++ ['\n', '\n']⟩

/-- Claim C1 counterexample: `overLongActual` is already normalized and
contains a blank line (its second line is empty), yet the scanner of
`hasBlankLine` aborts with `ErrTooLong` on the 64 KiB first line before
reaching it, so the rewrite branch emits the simple one-delimiter form —
refuting the claimed equivalence. -/
theorem rewrite_blank_safe_form_cex :
    (∃ l, l ∈ specLines (normalizeActual overLongActual) ∧ goTrimSpace l = [])
    ∧ rewriteExpectedChunks (normalizeActual overLongActual) =
        ["----", normalizeActual overLongActual] := by
  have hdata : overLongActual.data = List.replicate 65536 'a' ++ ['\n', '\n'] := rfl
  have hnorm : normalizeActual overLongActual = overLongActual := by
    have hsuf : goHasSuf overLongActual "\n" = true := by
      unfold goHasSuf
      rw [hdata, List.reverse_append]
      simp [listIsPre]
    simp [normalizeActual, hsuf]
  have hgo : goLines overLongActual = [] := by
    unfold goLines
    rw [hdata]
    exact goLinesAux_replicate_stop 65536 [] maxScanTokenSize ['\n', '\n']
      (by decide) (by decide)
  have h2 : specLinesAux [] ['\n'] = [[]] := by
    rw [specLinesAux_newline]
    rfl
  have hspec : specLines overLongActual =
      dropCR (List.replicate 65536 'a').reverse :: [[]] := by
    unfold specLines
    rw [hdata, specLinesAux_replicate, List.append_nil, specLinesAux_newline, h2]
  rw [hnorm]
  refine ⟨⟨[], ?_, rfl⟩, ?_⟩
  · rw [hspec]
    exact List.mem_cons_of_mem _ (List.mem_cons_self _ _)
  · simp [rewriteExpectedChunks, hasBlankLine, hgo]

/-- Claim C1 (amended): in rewrite mode the expected-output section of a
directive is emitted in the four-delimiter blank-line-safe form if and only
if the bounded line scan of the normalized actual output — `bufio.Scanner`
with its 64 KiB maximum token size, which stops at the first line of 64 KiB
or more — finds at least one line that is empty after trimming whitespace;
otherwise it is emitted as a single delimiter line followed by the actual
text.  When every line of the normalized actual output is shorter than
64 KiB, the scanner's lines are exactly the lines of the text, recovering
the original equivalence. -/
theorem rewrite_blank_safe_form_iff (raw : String) :
    (rewriteExpectedChunks (normalizeActual raw) =
        ["----", "----", normalizeActual raw, "----", "----"]
      ↔ ∃ l, l ∈ goLines (normalizeActual raw) ∧ goTrimSpace l = [])
    ∧ (rewriteExpectedChunks (normalizeActual raw) =
        ["----", normalizeActual raw]
      ↔ ¬ ∃ l, l ∈ goLines (normalizeActual raw) ∧ goTrimSpace l = [])
    ∧ ((∀ chunk ∈ rawLines (normalizeActual raw).data,
          utf8Len chunk < maxScanTokenSize) →
        goLines (normalizeActual raw) = specLines (normalizeActual raw)) := by
  have hiff : hasBlankLine (normalizeActual raw) = true ↔
      ∃ l, l ∈ goLines (normalizeActual raw) ∧ goTrimSpace l = [] := by
    simp [hasBlankLine, List.any_eq_true, List.isEmpty_iff]
  have hagree : (∀ chunk ∈ rawLines (normalizeActual raw).data,
      utf8Len chunk < maxScanTokenSize) →
      goLines (normalizeActual raw) = specLines (normalizeActual raw) :=
    fun h => goLinesAux_agree (normalizeActual raw).data [] maxScanTokenSize
      (by simp [utf8Len]) h
  cases h : hasBlankLine (normalizeActual raw) with
  | true =>
    have hex := hiff.mp h
    exact ⟨by simp [rewriteExpectedChunks, h, hex],
      by simp [rewriteExpectedChunks, h, hex], hagree⟩
  | false =>
    have hnex : ¬ ∃ l, l ∈ goLines (normalizeActual raw) ∧ goTrimSpace l = [] := by
      intro hex
      rw [← hiff] at hex
      simp [h] at hex
    exact ⟨by simp [rewriteExpectedChunks, h, hnex],
      by simp [rewriteExpectedChunks, h, hnex], hagree⟩

/-- Witness for claim C1 (amended): the output `"a\n\nb"` normalizes to
`"a\n\nb\n"`, every line is short, and the scanner finds the blank line, so
the blank-line-safe form is chosen and the capped and unbounded line scans
agree. -/
theorem rewrite_blank_safe_form_iff_witness :
    rewriteExpectedChunks (normalizeActual "a\n\nb") =
      ["----", "----", normalizeActual "a\n\nb", "----", "----"]
    ∧ goLines (normalizeActual "a\n\nb") = specLines (normalizeActual "a\n\nb") :=
  ⟨(rewrite_blank_safe_form_iff "a\n\nb").1.mpr ⟨[], by decide, by decide⟩,
    (rewrite_blank_safe_form_iff "a\n\nb").2.2 (by decide)⟩

/-! ### Classification lemmas for the subtest state machine -/

/-- A record whose command is not `subtest` is never an end marker. -/
theorem isSubTestEnd_of_cmd_ne (d : TestData) (h : d.cmd ≠ "subtest") :
    isSubTestEnd d = .notEnd := by
  simp [isSubTestEnd, h]

/-- A record whose command is not `subtest` is never a start marker. -/
theorem isSubTestStart_of_cmd_ne (d : TestData) (pre : String)
    (h : d.cmd ≠ "subtest") : isSubTestStart d pre = .notStart := by
  simp [isSubTestStart, h]

/-- A record whose command is not `subtest` is dispatched as a plain
directive at every nesting. -/
theorem classify_of_cmd_ne (stack : List Frame) (d : TestData)
    (h : d.cmd ≠ "subtest") : classify stack d = .directive := by
  cases stack <;>
    simp [classify, classifyStart, isSubTestEnd_of_cmd_ne _ h,
      isSubTestStart_of_cmd_ne _ _ h]

/-- One-step unfolding of `runLoop` on a non-empty stream, for an arbitrary
stack. -/
theorem runLoop_cons (rw : Bool) (f : TestData → HandlerResult)
    (stack : List Frame) (last d : TestData) (rest : List TestData) :
    runLoop rw f stack last (d :: rest) =
      match classify stack d with
      | .fatalAct msg => fatalAt d msg
      | .endPop => runLoop rw f stack.tail d rest
      | .startPush name => runLoop rw f (⟨name, d.pos⟩ :: stack) d rest
      | .directive =>
        match f d with
        | .skip =>
          match stack with
          | [] => .topSkip
          | fr :: _ => fatalAt d (skipInSubtestMsg fr.startPos)
        | .ret s failed =>
          if failed then .errStop
          else if rw = false ∧ d.expected ≠ normalizeActual s then
            .fatalMsg (outputMismatchMsg d (normalizeActual s))
          else runLoop rw f stack d rest := by
  cases stack <;> rfl

/-- Claim C7: a handler that invokes the host framework's skip mechanism
inside a subtest body causes a fatal failure whose message names the
subtest's start position. -/
theorem runLoop_skip_in_subtest (rw : Bool) (f : TestData → HandlerResult)
    (fr : Frame) (s2 : List Frame) (last d : TestData) (rest : List TestData)
    (hcmd : d.cmd ≠ "subtest") (hf : f d = .skip) :
    runLoop rw f (fr :: s2) last (d :: rest) =
      .fatalMsg (d.pos ++ ": " ++
        ("cannot use t.Skip inside subtest\n" ++ fr.startPos ++
          ": subtest started here")) := by
  simp [runLoop, classify_of_cmd_ne _ _ hcmd, hf, fatalAt, skipInSubtestMsg]

/-- Witness for claim C7: a skipping handler under the open group `sub1`. -/
theorem runLoop_skip_in_subtest_witness :
    runLoop false (fun _ => HandlerResult.skip) [⟨"sub1", "t.txt:1"⟩] default
        [⟨"t.txt:5", "work", [], "", ""⟩] =
      .fatalMsg ("t.txt:5" ++ ": " ++
        ("cannot use t.Skip inside subtest\n" ++ "t.txt:1" ++
          ": subtest started here")) :=
  runLoop_skip_in_subtest false (fun _ => HandlerResult.skip) ⟨"sub1", "t.txt:1"⟩
    [] default ⟨"t.txt:5", "work", [], "", ""⟩ [] (by decide) rfl

/-- Claim C6: a subtest-end record carrying a second argument must repeat
the name of the currently open group exactly, else the run fails fatally
with the mismatched-end diagnostic; a matching second argument returns to
the parent group; and a subtest-end record with more than one trailing
argument is a fatal syntax error. -/
theorem runLoop_subtest_end_checks (rw : Bool) (f : TestData → HandlerResult)
    (fr : Frame) (s2 : List Frame) (last d : TestData) (rest : List TestData) :
    (∀ vs x vs2, d.cmd = "subtest" → d.cmdArgs = [⟨"end", vs⟩, ⟨x, vs2⟩] →
      x ≠ fr.name →
      runLoop rw f (fr :: s2) last (d :: rest) =
        .fatalMsg (d.pos ++ ": " ++ mismatchedEndMsg x fr.name))
    ∧ (∀ vs x vs2, d.cmd = "subtest" → d.cmdArgs = [⟨"end", vs⟩, ⟨x, vs2⟩] →
      x = fr.name →
      runLoop rw f (fr :: s2) last (d :: rest) = runLoop rw f s2 d rest)
    ∧ (∀ a0 args2, d.cmd = "subtest" → d.cmdArgs = ⟨"end", a0⟩ :: args2 →
      2 < d.cmdArgs.length →
      runLoop rw f (fr :: s2) last (d :: rest) =
        .fatalMsg (d.pos ++ ": " ++ "invalid syntax for subtest end")) := by
  refine ⟨fun vs x vs2 hcmd hargs hx => ?_, fun vs x vs2 hcmd hargs hx => ?_,
    fun a0 args2 hcmd hargs hlen => ?_⟩
  · have hend : isSubTestEnd d = .isEnd := by
      simp [isSubTestEnd, hcmd, hargs]
    simp [runLoop, classify, hend, hargs, hx, fatalAt]
  · have hend : isSubTestEnd d = .isEnd := by
      simp [isSubTestEnd, hcmd, hargs]
    simp [runLoop, classify, hend, hargs, hx]
  · rw [hargs] at hlen
    have hl2 : 2 < args2.length + 1 := by simpa using hlen
    have hend : isSubTestEnd d = .fatalSyntax := by
      unfold isSubTestEnd
      rw [hargs]
      simp [hcmd, hl2]
    simp [runLoop, classify, hend, fatalAt]

/-- Witness for claim C6: `subtest end bar` while the open group is `foo`. -/
theorem runLoop_subtest_end_checks_witness :
    runLoop false (fun _ => HandlerResult.ret "" false) [⟨"foo", "f:1"⟩] default
        [⟨"f:3", "subtest", [⟨"end", []⟩, ⟨"bar", []⟩], "", ""⟩] =
      .fatalMsg ("f:3" ++ ": " ++ mismatchedEndMsg "bar" "foo") :=
  (runLoop_subtest_end_checks false (fun _ => HandlerResult.ret "" false)
    ⟨"foo", "f:1"⟩ [] default ⟨"f:3", "subtest", [⟨"end", []⟩, ⟨"bar", []⟩], "", ""⟩
    []).1 [] "bar" [] rfl rfl (by decide)

/-- Claim C2 counterexample: at the top level the mandatory name segment is
empty, which every name begins with, so a record starting the group
`foo/bar` — and likewise one starting `bar` — is accepted even though no
group `foo` is open, refuting both that `foo/bar` is only accepted while
the innermost open group is `foo` and that opening `bar` at the top level
is rejected. -/
theorem isSubTestStart_top_level_cex :
    isSubTestStart ⟨"t:1", "subtest", [⟨"foo/bar", []⟩], "", ""⟩ "" =
      .start "foo/bar"
    ∧ isSubTestStart ⟨"t:2", "subtest", [⟨"bar", []⟩], "", ""⟩ "" = .start "bar"
    ∧ subPre [] = "" := by
  decide

/-- Claim C2 (amended): a subtest-start record (command `subtest`, exactly
one argument whose key is not `end`) is accepted if and only if its name
begins with the mandatory name segment of the innermost open group
(initially empty — hence at top level every name is accepted — and
`parentName ++ "/"` inside a group), else it is fatal; in particular
`foo/bar` is accepted while the innermost open group is `foo` or at top
level, and opening `bar` while the group `foo` is open is rejected. -/
theorem runLoop_subtest_start_iff (rw : Bool) (f : TestData → HandlerResult)
    (stack : List Frame) (last d : TestData) (rest : List TestData)
    (name : String) (vs : List String)
    (hcmd : d.cmd = "subtest") (hargs : d.cmdArgs = [⟨name, vs⟩])
    (hname : name ≠ "end") :
    (isSubTestStart d (subPre stack) = .start name ↔
      goHasPre name (subPre stack) = true)
    ∧ (goHasPre name (subPre stack) = true →
      runLoop rw f stack last (d :: rest) =
        runLoop rw f (⟨name, d.pos⟩ :: stack) d rest)
    ∧ (goHasPre name (subPre stack) = false →
      runLoop rw f stack last (d :: rest) =
        .fatalMsg (d.pos ++ ": " ++ startPreMsg (subPre stack))) := by
  cases hpre : goHasPre name (subPre stack) with
  | true =>
    have hstart : isSubTestStart d (subPre stack) = .start name := by
      simp [isSubTestStart, hcmd, hargs, hname, hpre]
    have hcl : classify stack d = .startPush name := by
      cases stack with
      | nil =>
        have hstart0 : isSubTestStart d "" = .start name := hstart
        simp [classify, classifyStart, hstart0]
      | cons fr s2 =>
        have hend : isSubTestEnd d = .notEnd := by
          simp [isSubTestEnd, hcmd, hargs, hname]
        simp [classify, classifyStart, hend, hstart]
    refine ⟨by simp [hstart], fun _ => ?_, fun hcontra => ?_⟩
    · simp [runLoop_cons, hcl]
    · simp at hcontra
  | false =>
    have hstart : isSubTestStart d (subPre stack) =
        .fatalStart (startPreMsg (subPre stack)) := by
      simp [isSubTestStart, hcmd, hargs, hname, hpre]
    have hcl : classify stack d = .fatalAct (startPreMsg (subPre stack)) := by
      cases stack with
      | nil =>
        have hstart0 : isSubTestStart d "" = .fatalStart (startPreMsg "") := hstart
        simp [classify, classifyStart, hstart0]
        rfl
      | cons fr s2 =>
        have hend : isSubTestEnd d = .notEnd := by
          simp [isSubTestEnd, hcmd, hargs, hname]
        simp [classify, classifyStart, hend, hstart]
    refine ⟨by simp [hstart], fun hcontra => ?_, fun _ => ?_⟩
    · simp at hcontra
    · simp [runLoop_cons, hcl, fatalAt]

/-- Witness for claim C2 (amended): `subtest foo/bar` is accepted while the
group `foo` is open and pushes the new group. -/
theorem runLoop_subtest_start_iff_witness :
    runLoop false (fun _ => HandlerResult.ret "" false) [⟨"foo", "t:1"⟩] default
        [⟨"t:5", "subtest", [⟨"foo/bar", []⟩], "", ""⟩] =
      runLoop false (fun _ => HandlerResult.ret "" false)
        [⟨"foo/bar", "t:5"⟩, ⟨"foo", "t:1"⟩]
        ⟨"t:5", "subtest", [⟨"foo/bar", []⟩], "", ""⟩ [] :=
  (runLoop_subtest_start_iff false (fun _ => HandlerResult.ret "" false)
    [⟨"foo", "t:1"⟩] default ⟨"t:5", "subtest", [⟨"foo/bar", []⟩], "", ""⟩ []
    "foo/bar" [] rfl rfl (by decide)).2.1 (by decide)

/-- Success of the destination loop: scanning from value index `i` succeeds
exactly when every destination's value converts. -/
theorem scanList_none_iff (arg : CmdArg) (ds : List Dest) :
    ∀ i, (scanList arg i ds).2 = none ↔
      ∀ j, j < ds.length →
        (argScan arg (i + j) (ds.getD j default)).isSome = true := by
  induction ds with
  | nil => intro i; simp [scanList]
  | cons d ds ih =>
    intro i
    cases hsc : argScan arg i d with
    | none =>
      simp only [scanList, hsc]
      constructor
      · intro h
        simp at h
      · intro h
        have h0 := h 0 (by simp)
        rw [Nat.add_zero] at h0
        simp [hsc] at h0
    | some d2 =>
      simp only [scanList, hsc]
      rw [ih (i + 1)]
      constructor
      · intro h j hj
        cases j with
        | zero => simp [hsc]
        | succ j =>
          have hjj := h j (by simpa using hj)
          have harith : i + (j + 1) = i + 1 + j := by omega
          simpa [harith] using hjj
      · intro h j hj
        have hjj := h (j + 1) (by simpa using hj)
        have harith : i + (j + 1) = i + 1 + j := by omega
        simpa [harith] using hjj

/-- Failure of the destination loop: there is a failing index, and from it
on the destinations are returned unchanged. -/
theorem scanList_fail_suffix (arg : CmdArg) (ds : List Dest) :
    ∀ i e, (scanList arg i ds).2 = some e →
      ∃ j, j < ds.length ∧ argScan arg (i + j) (ds.getD j default) = none ∧
        (scanList arg i ds).1.drop j = ds.drop j := by
  induction ds with
  | nil => intro i e h; simp [scanList] at h
  | cons d ds ih =>
    intro i e h
    cases hsc : argScan arg i d with
    | none =>
      refine ⟨0, by simp, ?_, ?_⟩
      · simpa using hsc
      · simp [scanList, hsc]
    | some d2 =>
      simp only [scanList, hsc] at h
      obtain ⟨j, hj, hfail, hdrop⟩ := ih (i + 1) e h
      refine ⟨j + 1, by simpa using hj, ?_, ?_⟩
      · have harith : i + (j + 1) = i + 1 + j := by omega
        simpa [harith] using hfail
      · simp only [scanList, hsc, List.drop_succ_cons]
        exact hdrop

/-- Claim C4 (amended): for every non-empty key, `ScanArgs` into N
destinations succeeds if and only if an argument with that key exists, the
first such argument has exactly N recorded values, and each of its values
converts to the corresponding destination's kind; on any failure (missing
key, arity mismatch, or conversion failure) there is a failing index at or
beyond which no destination is mutated (index 0 — no mutation at all — for
the missing-key and arity cases). -/
theorem scanArgs_success_iff (td : TestData) (key : String) (dests : List Dest)
    (hk : key ≠ "") :
    ((scanArgs td key dests).2 = none ↔
      ∃ arg, td.cmdArgs.find? (fun a => a.key == key) = some arg ∧
        arg.vals.length = dests.length ∧
        ∀ j, j < dests.length →
          (argScan arg j (dests.getD j default)).isSome = true)
    ∧ (∀ e, (scanArgs td key dests).2 = some e →
      ∃ j, (scanArgs td key dests).1.drop j = dests.drop j ∧
        (j = 0 ∨
          argScan (lookupArg td.cmdArgs key) j (dests.getD j default) = none)) := by
  cases hf : td.cmdArgs.find? (fun a => a.key == key) with
  | none =>
    have hlook : lookupArg td.cmdArgs key = ⟨"", []⟩ := by
      simp [lookupArg, hf]
    have heq : scanArgs td key dests = (dests, some ("missing argument: " ++ key)) := by
      simp only [scanArgs]
      rw [hlook, if_pos rfl]
    constructor
    · rw [heq]
      simp
    · intro e _
      exact ⟨0, by rw [heq], Or.inl rfl⟩
  | some a =>
    have ha : a.key = key := find?_key_eq hf
    have hlook : lookupArg td.cmdArgs key = a := by
      simp [lookupArg, hf]
    have hak : ¬ a.key = "" := by rw [ha]; exact hk
    by_cases hlen : dests.length = a.vals.length
    · have heq : scanArgs td key dests = scanList a 0 dests := by
        simp only [scanArgs]
        rw [hlook, if_neg hak, if_neg (fun hne => hne hlen)]
      constructor
      · rw [heq, scanList_none_iff a dests 0]
        constructor
        · intro hall
          exact ⟨a, rfl, hlen.symm, fun j hj => by simpa using hall j hj⟩
        · rintro ⟨arg, hfind, hlen2, hconv⟩
          obtain rfl : a = arg := Option.some.inj hfind
          intro j hj
          simpa using hconv j hj
      · intro e he
        rw [heq] at he
        obtain ⟨j, hj, hfail, hdrop⟩ := scanList_fail_suffix a dests 0 e he
        refine ⟨j, by rw [heq]; exact hdrop, Or.inr ?_⟩
        rw [hlook]
        simpa using hfail
    · have heq : scanArgs td key dests =
          (dests, some (a.key ++ ": got " ++ toString dests.length ++
            " destinations, but " ++ toString a.vals.length ++ " values")) := by
        simp only [scanArgs]
        rw [hlook, if_neg hak, if_pos hlen]
      constructor
      · apply iff_of_false
        · rw [heq]
          simp
        · rintro ⟨arg, hfind, hlen2, -⟩
          obtain rfl : a = arg := Option.some.inj hfind
          exact hlen hlen2.symm
      · intro e _
        exact ⟨0, by rw [heq], Or.inl rfl⟩

/-- Witness for claim C4 (amended): scanning `k=(1, 2)` into two integer
destinations succeeds. -/
theorem scanArgs_success_iff_witness :
    (scanArgs ⟨"p", "c", [⟨"k", ["1", "2"]⟩], "", ""⟩ "k"
      [Dest.dint 0, Dest.dint 5]).2 = none :=
  (scanArgs_success_iff ⟨"p", "c", [⟨"k", ["1", "2"]⟩], "", ""⟩ "k"
    [Dest.dint 0, Dest.dint 5] (by decide)).1.mpr
    ⟨⟨"k", ["1", "2"]⟩, by decide, by decide, by decide⟩

end Datadriven
